import Mathlib

/-!
Shallow embedding of the `concurrency` package of `sanksons/gowraps`
(`Parallelize` and `ParallelizeThrottled`, file `parallelize.go`) together
with the concrete tasks of the package's tests, and proofs of the spec's
claims about them.

Modelling decisions:

* A Go task `func() interface\x7b\x7d` is modelled, extensionally for a single
  run, by a `GoTask α`: it either returns normally carrying a value of type
  `Option α` (where `none` models the Go `nil` interface value) or it
  panics.
* The result set `[]interface\x7b\x7d` is a `List (Option α)`; `none` is both
  the zero value a slot is initialised with (`make` zero-fills) and the Go
  `nil` left in a slot whose task panicked.
* A goroutine `go func(f, offset)` guarded by `defer recover` either writes
  `f()`'s value into slot `offset`, or (on panic) recovers, logs, and leaves
  the slot untouched; `runGuarded` is what such a goroutine stores in its
  slot relative to the zero value.
* Concurrency: the goroutines of one barrier group (`sync.WaitGroup`) write
  disjoint slots in some scheduler-chosen order.  A run is modelled by a
  schedule: the list of slot indices in the order their writes happen;
  `writeSlots` folds those writes over the result array.  A valid schedule
  of `Parallelize` is any permutation of `0 .. n-1`; for
  `ParallelizeThrottled` the waves run in program order and the schedule of
  each wave is a permutation of that wave's index block.
* The deterministic functions `Parallelize` / `ParallelizeThrottled` below
  use the program-order schedule; the scheduling-independence theorems show
  every valid schedule yields the same result set.
-/

namespace Gowraps

/-- A single run of a Go task `func() interface\x7b\x7d`: it either returns a
value (`none` modelling a `nil` interface value) or panics. -/
inductive GoTask (α : Type) where
  | ret (v : Option α)
  | panic
deriving DecidableEq, Repr

/-- What the panic-guarded goroutine leaves in its slot, relative to the
slot's zero value: the returned value on normal completion, and the
untouched zero marker `none` when the task panics (the `recover` branch
only logs and writes nothing). -/
def runGuarded {α : Type} : GoTask α → Option α
  | .ret v => v
  | .panic => none

/-- The value the goroutine assigned to slot `k` stores there
(`resultSet[offset] = f()` under the panic guard). Out-of-range defaults
never arise in the schedules the runners produce. -/
def writeVal {α : Type} (fns : List (GoTask α)) (k : Nat) : Option α :=
  runGuarded (fns.getD k (GoTask.ret none))

/-- Execute the slot writes of the goroutines whose indices are listed in
`idxs`, in that order, over the result array `acc`. -/
def writeSlots {α : Type} (fns : List (GoTask α)) (idxs : List Nat)
    (acc : List (Option α)) : List (Option α) :=
  idxs.foldl (fun res k => res.set k (writeVal fns k)) acc

/-- `Parallelize` under an explicit schedule `sched` (the order in which
the goroutines' slot writes happen): result array zero-initialised to
length `len(functions)`, every listed goroutine writes its own slot, then
the barrier releases the array. -/
def ParallelizeSched {α : Type} (fns : List (GoTask α)) (sched : List Nat) :
    List (Option α) :=
  writeSlots fns sched (List.replicate fns.length none)

/-- `Parallelize(functions)`: spawns one guarded goroutine per task, waits
on the barrier, returns the result set.  The deterministic reference run
uses the program-order schedule `0, 1, …, n-1`; scheduling independence is
proved separately. -/
def Parallelize {α : Type} (fns : List (GoTask α)) : List (Option α) :=
  ParallelizeSched fns (List.range fns.length)

/-- The wave index blocks of the throttling loop
`for i := 0; i < max; i = i + factor`, for positive factor `fpred + 1`,
starting at index `i` with `rem = max - i` tasks left: each iteration takes
`toProcess = min factor remaining` tasks, the wave being the global indices
`i, …, i + toProcess - 1`. -/
def wavesFrom (fpred : Nat) : Nat → Nat → List (List Nat)
  | _, 0 => []
  | i, rem + 1 =>
    let toProcess := min (fpred + 1) (rem + 1)
    List.range' i toProcess ::
      wavesFrom fpred (i + toProcess) (rem + 1 - toProcess)
termination_by _ rem => rem
decreasing_by omega

/-- The wave partition of task indices `0 .. n-1` produced by
`ParallelizeThrottled`'s loop for a positive throttle factor `F`. -/
def waves (n F : Nat) : List (List Nat) :=
  wavesFrom (F - 1) 0 n

/-- Run a sequence of waves: each wave's goroutines write their slots and
the `wg.Wait()` barrier closes the wave before the next starts. -/
def runWaves {α : Type} (fns : List (GoTask α)) (scheds : List (List Nat))
    (acc : List (Option α)) : List (Option α) :=
  scheds.foldl (fun res s => writeSlots fns s res) acc

/-- `ParallelizeThrottled` under an explicit list of wave schedules. -/
def ParallelizeThrottledSched {α : Type} (fns : List (GoTask α))
    (scheds : List (List Nat)) : List (Option α) :=
  runWaves fns scheds (List.replicate fns.length none)

/-- `ParallelizeThrottled(functions, factor)`: for `factor <= 0` it
delegates to `Parallelize`; otherwise it runs the wave loop, each wave of
at most `factor` tasks, waves strictly in order. -/
def ParallelizeThrottled {α : Type} (fns : List (GoTask α)) (factor : Int) :
    List (Option α) :=
  if factor ≤ 0 then Parallelize fns
  else ParallelizeThrottledSched fns (waves fns.length factor.toNat)

end Gowraps

namespace Gowraps

theorem writeSlots_nil {α : Type} (fns : List (GoTask α)) (acc : List (Option α)) :
    writeSlots fns [] acc = acc := rfl

theorem writeSlots_cons {α : Type} (fns : List (GoTask α)) (k : Nat)
    (idxs : List Nat) (acc : List (Option α)) :
    writeSlots fns (k :: idxs) acc = writeSlots fns idxs (acc.set k (writeVal fns k)) := rfl

theorem writeSlots_append {α : Type} (fns : List (GoTask α)) (a b : List Nat)
    (acc : List (Option α)) :
    writeSlots fns (a ++ b) acc = writeSlots fns b (writeSlots fns a acc) := by
  simp [writeSlots, List.foldl_append]

theorem length_writeSlots {α : Type} (fns : List (GoTask α)) (idxs : List Nat)
    (acc : List (Option α)) :
    (writeSlots fns idxs acc).length = acc.length := by
  induction idxs generalizing acc with
  | nil => rfl
  | cons k idxs ih => simp [writeSlots_cons, ih]

theorem getElem?_writeSlots {α : Type} (fns : List (GoTask α)) (idxs : List Nat)
    (acc : List (Option α)) (k : Nat) :
    (writeSlots fns idxs acc)[k]? =
      if k ∈ idxs ∧ k < acc.length then some (writeVal fns k) else acc[k]? := by
  induction idxs generalizing acc with
  | nil => simp [writeSlots_nil]
  | cons j idxs ih =>
    rw [writeSlots_cons, ih, List.length_set]
    by_cases hlen : k < acc.length
    · by_cases hmem : k ∈ idxs
      · simp [hmem, hlen]
      · by_cases hkj : k = j
        · subst hkj
          simp [hmem, hlen, List.getElem?_set_self hlen]
        · simp [hmem, hkj, hlen, List.getElem?_set_ne (Ne.symm hkj)]
    · have h1 : (acc.set j (writeVal fns j))[k]? = none :=
        List.getElem?_eq_none (by simp; omega)
      have h2 : acc[k]? = none := List.getElem?_eq_none (by omega)
      simp [hlen, h1, h2]

theorem writeVal_eq_runGuarded {α : Type} {fns : List (GoTask α)} {k : Nat}
    {t : GoTask α} (h : fns[k]? = some t) : writeVal fns k = runGuarded t := by
  simp [writeVal, List.getD_eq_getElem?_getD, h]

/-- The slot writes of one barrier group commute: any scheduler-chosen
completion order yields the same result array. -/
theorem writeSlots_perm {α : Type} (fns : List (GoTask α)) {idxs idxs' : List Nat}
    (h : idxs.Perm idxs') (acc : List (Option α)) :
    writeSlots fns idxs acc = writeSlots fns idxs' acc := by
  refine h.foldl_eq' ?_ acc
  intro x _ y _ z
  by_cases hxy : x = y
  · subst hxy; rfl
  · exact List.set_comm _ _ _ hxy

theorem runWaves_eq_flatten {α : Type} (fns : List (GoTask α))
    (scheds : List (List Nat)) (acc : List (Option α)) :
    runWaves fns scheds acc = writeSlots fns scheds.flatten acc := by
  induction scheds generalizing acc with
  | nil => rfl
  | cons s ss ih =>
    rw [List.flatten_cons, writeSlots_append]
    exact ih (writeSlots fns s acc)

/-- Any run of `Parallelize` — any order in which the goroutines' writes
land — produces the guarded outcome of task `i` in slot `i`. -/
theorem parallelizeSched_eq_map {α : Type} (fns : List (GoTask α))
    (sched : List Nat) (h : sched.Perm (List.range fns.length)) :
    ParallelizeSched fns sched = fns.map runGuarded := by
  rw [ParallelizeSched, writeSlots_perm fns h]
  apply List.ext_getElem?
  intro k
  rw [getElem?_writeSlots]
  by_cases hk : k < fns.length
  · rw [if_pos ⟨List.mem_range.mpr hk, by simpa using hk⟩,
      List.getElem?_map, List.getElem?_eq_getElem hk]
    simp [writeVal_eq_runGuarded (List.getElem?_eq_getElem hk)]
  · rw [if_neg (by simp [List.mem_range]; omega)]
    rw [List.getElem?_eq_none (by simpa using Nat.le_of_not_lt hk),
      List.getElem?_eq_none (by simpa using Nat.le_of_not_lt hk)]

theorem Parallelize_eq_map {α : Type} (fns : List (GoTask α)) :
    Parallelize fns = fns.map runGuarded :=
  parallelizeSched_eq_map fns _ (List.Perm.refl _)

theorem wavesFrom_zero (fp i : Nat) : wavesFrom fp i 0 = [] := by
  simp [wavesFrom]

theorem wavesFrom_succ (fp i r : Nat) :
    wavesFrom fp i (r + 1) = List.range' i (min (fp + 1) (r + 1)) ::
      wavesFrom fp (i + min (fp + 1) (r + 1)) (r + 1 - min (fp + 1) (r + 1)) := by
  simp [wavesFrom]

/-- The waves of the throttling loop cover exactly the index interval the
loop was started on: every global index, each exactly once, in order. -/
theorem wavesFrom_flatten (fp rem i : Nat) :
    (wavesFrom fp i rem).flatten = List.range' i rem := by
  induction rem using Nat.strong_induction_on generalizing i with
  | _ rem ih =>
    match rem with
    | 0 => simp [wavesFrom_zero]
    | r + 1 =>
      rw [wavesFrom_succ, List.flatten_cons, ih _ (by omega)]
      have h1 := List.range'_append i (min (fp + 1) (r + 1))
        (r + 1 - min (fp + 1) (r + 1)) 1
      rw [one_mul] at h1
      rw [h1]
      congr 1
      omega

/-- Closed form of the wave partition: wave `k` is the contiguous block of
`min F (rem - k*F)` global indices starting at `i + k*F`, and there are
`⌈rem/F⌉` waves. -/
theorem wavesFrom_eq_map (fp rem i : Nat) :
    wavesFrom fp i rem = (List.range ((rem + fp) / (fp + 1))).map
      (fun k => List.range' (i + k * (fp + 1)) (min (fp + 1) (rem - k * (fp + 1)))) := by
  induction rem using Nat.strong_induction_on generalizing i with
  | _ rem ih =>
    match rem with
    | 0 =>
      have h0 : fp / (fp + 1) = 0 := Nat.div_eq_of_lt (by omega)
      simp [wavesFrom_zero, h0]
    | r + 1 =>
      have hcount : (r + 1 + fp) / (fp + 1) = r / (fp + 1) + 1 := by
        have he : r + 1 + fp = r + (fp + 1) := by omega
        rw [he, Nat.add_div_right _ (by omega)]
      rw [hcount, List.range_succ_eq_map, List.map_cons, List.map_map, wavesFrom_succ]
      by_cases hbig : fp + 1 ≤ r + 1
      · have ht : min (fp + 1) (r + 1) = fp + 1 := Nat.min_eq_left hbig
        rw [ht]
        congr 1
        · simp
          omega
        · rw [ih (r + 1 - (fp + 1)) (by omega)]
          have hq : (r + 1 - (fp + 1) + fp) / (fp + 1) = r / (fp + 1) := by
            congr 1
            omega
          rw [hq]
          apply List.map_congr_left
          intro k _
          have hm : (k + 1) * (fp + 1) = k * (fp + 1) + (fp + 1) := by ring
          simp only [Function.comp_apply, Nat.succ_eq_add_one, hm]
          congr 1
          · omega
          · omega
      · have ht : min (fp + 1) (r + 1) = r + 1 := Nat.min_eq_right (by omega)
        have hr0 : r / (fp + 1) = 0 := Nat.div_eq_of_lt (by omega)
        rw [ht, hr0]
        simp [wavesFrom_zero]
        omega

theorem waves_flatten (n F : Nat) : (waves n F).flatten = List.range n := by
  rw [waves, wavesFrom_flatten, List.range_eq_range']

theorem waves_eq_map (n F : Nat) (hF : 0 < F) :
    waves n F = (List.range ((n + F - 1) / F)).map
      (fun k => List.range' (k * F) (min F (n - k * F))) := by
  have hF1 : F - 1 + 1 = F := by omega
  have hn : n + (F - 1) = n + F - 1 := by omega
  rw [waves, wavesFrom_eq_map, hF1, hn]
  apply List.map_congr_left
  intro k _
  rw [Nat.zero_add]

theorem waves_length (n F : Nat) (hF : 0 < F) :
    (waves n F).length = (n + F - 1) / F := by
  rw [waves_eq_map n F hF]
  simp

/-- The size `min F (n - k*F)` of the `k`-th block is the full factor `F`
while a full block remains, and `n % F` for a final partial block. -/
theorem min_block_size (n F k : Nat) (hF : 0 < F) (hk : k < (n + F - 1) / F) :
    min F (n - k * F) = if (k + 1) * F ≤ n then F else n % F := by
  have hmul : (k + 1) * F = k * F + F := by ring
  have hkm : (k + 1) * F ≤ n + F - 1 :=
    (Nat.le_div_iff_mul_le hF).mp (by omega)
  by_cases hle : (k + 1) * F ≤ n
  · rw [if_pos hle, hmul] at *
    omega
  · rw [if_neg hle]
    have hkF : k * F ≤ n := by
      rw [hmul] at hkm
      omega
    have hdiv : n / F = k := Nat.div_eq_of_lt_le hkF (Nat.lt_of_not_le hle)
    have hmod := Nat.mod_add_div n F
    rw [hdiv, Nat.mul_comm F k] at hmod
    rw [hmul] at hle
    omega

/-- Size of each wave of the loop: the full factor `F` for every wave that
still has a full block ahead of it, `n % F` for a final partial wave. -/
theorem waves_sizes (n F : Nat) (hF : 0 < F) :
    (waves n F).map List.length = (List.range ((n + F - 1) / F)).map
      (fun k => if (k + 1) * F ≤ n then F else n % F) := by
  rw [waves_eq_map n F hF, List.map_map]
  apply List.map_congr_left
  intro k hk
  simp only [Function.comp_apply, List.length_range']
  exact min_block_size n F k hF (List.mem_range.mp hk)

/-- Frame property of a barrier group: a slot whose index no goroutine of
the group owns is left exactly as it was. -/
theorem writeSlots_frame {α : Type} (fns : List (GoTask α)) (idxs : List Nat)
    (acc : List (Option α)) (j : Nat) (hj : j ∉ idxs) :
    (writeSlots fns idxs acc)[j]? = acc[j]? := by
  rw [getElem?_writeSlots]
  simp [hj]

/-- A slot owned by some goroutine of the group ends up holding exactly
that goroutine's guarded outcome, whatever the write order. -/
theorem writeSlots_own {α : Type} (fns : List (GoTask α)) (idxs : List Nat)
    (acc : List (Option α)) (j : Nat) (hj : j ∈ idxs) (hlen : j < acc.length) :
    (writeSlots fns idxs acc)[j]? = some (writeVal fns j) := by
  rw [getElem?_writeSlots]
  simp [hj, hlen]

/-- Later waves never touch a slot outside their own index blocks: what an
earlier wave wrote stays written. -/
theorem runWaves_frame {α : Type} (fns : List (GoTask α))
    (scheds : List (List Nat)) (acc : List (Option α)) (j : Nat)
    (hj : j ∉ scheds.flatten) :
    (runWaves fns scheds acc)[j]? = acc[j]? := by
  rw [runWaves_eq_flatten]
  exact writeSlots_frame fns _ acc j hj

/-- `ParallelizeThrottled`, for every factor, produces task `i`'s guarded
outcome in slot `i`. -/
theorem ParallelizeThrottled_eq_map {α : Type} (fns : List (GoTask α))
    (factor : Int) : ParallelizeThrottled fns factor = fns.map runGuarded := by
  rw [ParallelizeThrottled]
  by_cases h : factor ≤ 0
  · rw [if_pos h, Parallelize_eq_map]
  · rw [if_neg h, ParallelizeThrottledSched, runWaves_eq_flatten, waves_flatten]
    exact parallelizeSched_eq_map fns _ (List.Perm.refl _)

/-- Scheduling independence of the throttled runner: any wave structure
whose writes cover each index exactly once yields the reference result. -/
theorem parallelizeThrottledSched_eq_map {α : Type} (fns : List (GoTask α))
    (scheds : List (List Nat))
    (h : scheds.flatten.Perm (List.range fns.length)) :
    ParallelizeThrottledSched fns scheds = fns.map runGuarded := by
  rw [ParallelizeThrottledSched, runWaves_eq_flatten]
  exact parallelizeSched_eq_map fns _ h

/-- When the whole batch fits in one block (`n ≤ F`), the loop produces a
single wave holding every index (or no wave at all for an empty batch). -/
theorem waves_single (n F : Nat) (hn : n ≤ F) :
    waves n F = if n = 0 then [] else [List.range n] := by
  match n with
  | 0 => simp [waves, wavesFrom_zero]
  | r + 1 =>
    rw [waves, wavesFrom_succ]
    have ht : min (F - 1 + 1) (r + 1) = r + 1 := by omega
    rw [ht]
    simp [wavesFrom_zero, List.range_eq_range']

/-- The `add` helper of the package's test file: panics when `a == 13`,
otherwise returns `a + b`. -/
def add (a b : Int) : GoTask Int :=
  if a = 13 then GoTask.panic else GoTask.ret (some (a + b))

/-- The `sum` closure of the package's example file: returns `a + b`,
never panics. -/
def sum (a b : Int) : GoTask Int :=
  GoTask.ret (some (a + b))

/-- The ten pair-sum tasks of `ExampleParallelize_sum` and
`ExampleParallelizeThrottled_sum`: pairs `(10,20), (11,21), …, (19,29)`,
no panics. -/
def exampleTasks : List (GoTask Int) :=
  (List.range 10).map (fun k => sum ((k : Int) + 10) ((k : Int) + 20))

/-- The ten tasks of `TestParallelize` and `TestParallelizeThrottled`: the
same pairs through `add`, whose `a == 13` branch (the pair `(13,23)`, batch
index 3) panics deliberately. -/
def testTasks : List (GoTask Int) :=
  (List.range 10).map (fun k => add ((k : Int) + 10) ((k : Int) + 20))

/-- C1: for every batch and every index `i` whose task returns normally,
both `Parallelize` and `ParallelizeThrottled` (under any factor, and under
any write scheduling: any completion order of the unbounded batch, any
wave structure covering each index once) put exactly task `i`'s returned
value into slot `i`. -/
theorem claim1_slot_holds_own_task_value {α : Type} (fns : List (GoTask α))
    (i : Nat) (v : Option α) (factor : Int) (sched : List Nat)
    (scheds : List (List Nat))
    (hsched : sched.Perm (List.range fns.length))
    (hscheds : scheds.flatten.Perm (List.range fns.length))
    (hi : fns[i]? = some (GoTask.ret v)) :
    (Parallelize fns)[i]? = some v ∧
    (ParallelizeThrottled fns factor)[i]? = some v ∧
    (ParallelizeSched fns sched)[i]? = some v ∧
    (ParallelizeThrottledSched fns scheds)[i]? = some v := by
  have hv : (fns.map runGuarded)[i]? = some v := by
    rw [List.getElem?_map, hi]
    rfl
  exact ⟨by rw [Parallelize_eq_map]; exact hv,
    by rw [ParallelizeThrottled_eq_map]; exact hv,
    by rw [parallelizeSched_eq_map fns sched hsched]; exact hv,
    by rw [parallelizeThrottledSched_eq_map fns scheds hscheds]; exact hv⟩

/-- Witness for C1: a two-task batch, task 0 returning `7`, task 1
panicking; a reversed completion order and a two-wave split. -/
theorem claim1_slot_holds_own_task_value_witness :
    (Parallelize [GoTask.ret (some (7 : Int)), GoTask.panic])[0]? = some (some 7) ∧
    (ParallelizeThrottled [GoTask.ret (some (7 : Int)), GoTask.panic] 1)[0]? = some (some 7) ∧
    (ParallelizeSched [GoTask.ret (some (7 : Int)), GoTask.panic] [1, 0])[0]? = some (some 7) ∧
    (ParallelizeThrottledSched [GoTask.ret (some (7 : Int)), GoTask.panic] [[0], [1]])[0]? = some (some 7) :=
  claim1_slot_holds_own_task_value [GoTask.ret (some 7), GoTask.panic] 0
    (some 7) 1 [1, 0] [[0], [1]] (by decide) (by decide) (by decide)

/-- C2: a panicking task is contained: both executors return with its slot
still holding the absent `nil` marker, and every other slot holds its own
task's guarded outcome, unaffected by the panic. -/
theorem claim2_panic_contained {α : Type} (fns : List (GoTask α)) (i : Nat)
    (factor : Int) (hi : fns[i]? = some GoTask.panic) :
    (Parallelize fns)[i]? = some none ∧
    (ParallelizeThrottled fns factor)[i]? = some none ∧
    (∀ (j : Nat) (t : GoTask α), j ≠ i → fns[j]? = some t →
      (Parallelize fns)[j]? = some (runGuarded t) ∧
      (ParallelizeThrottled fns factor)[j]? = some (runGuarded t)) := by
  have key : ∀ (j : Nat) (t : GoTask α), fns[j]? = some t →
      (fns.map runGuarded)[j]? = some (runGuarded t) := by
    intro j t hj
    rw [List.getElem?_map, hj]
    rfl
  refine ⟨?_, ?_, ?_⟩
  · rw [Parallelize_eq_map]
    exact key i _ hi
  · rw [ParallelizeThrottled_eq_map]
    exact key i _ hi
  · intro j t _ hj
    exact ⟨by rw [Parallelize_eq_map]; exact key j t hj,
      by rw [ParallelizeThrottled_eq_map]; exact key j t hj⟩

/-- Witness for C2: task 1 panics, its slot stays `nil` under both
executors, and task 0's slot still receives its value `1`. -/
theorem claim2_panic_contained_witness :
    (Parallelize [GoTask.ret (some (1 : Int)), GoTask.panic])[1]? = some none ∧
    (ParallelizeThrottled [GoTask.ret (some (1 : Int)), GoTask.panic] 2)[1]? = some none ∧
    (Parallelize [GoTask.ret (some (1 : Int)), GoTask.panic])[0]? = some (some 1) :=
  ⟨(claim2_panic_contained [GoTask.ret (some 1), GoTask.panic] 1 2 (by decide)).1,
   (claim2_panic_contained [GoTask.ret (some 1), GoTask.panic] 1 2 (by decide)).2.1,
   ((claim2_panic_contained [GoTask.ret (some 1), GoTask.panic] 1 2 (by decide)).2.2 0
      (GoTask.ret (some 1)) (by decide) (by decide)).1⟩

/-- C3: for every positive factor `F`, the throttling loop partitions the
indices `0 .. n-1` into `⌈n/F⌉` contiguous blocks — wave `k` starting at
global index `k*F`, of size `F` for every wave with a full block ahead and
`n % F` for a final partial wave — whose in-order concatenation is exactly
`0 .. n-1` (disjoint and exhaustive), and the throttled runner is the
strictly sequential fold of those waves, each write at its global index. -/
theorem claim3_wave_partition {α : Type} (fns : List (GoTask α)) (factor : Int)
    (hf : 0 < factor) :
    waves fns.length factor.toNat =
      (List.range ((fns.length + factor.toNat - 1) / factor.toNat)).map
        (fun k => List.range' (k * factor.toNat)
          (min factor.toNat (fns.length - k * factor.toNat))) ∧
    (waves fns.length factor.toNat).length =
      (fns.length + factor.toNat - 1) / factor.toNat ∧
    (waves fns.length factor.toNat).flatten = List.range fns.length ∧
    (waves fns.length factor.toNat).map List.length =
      (List.range ((fns.length + factor.toNat - 1) / factor.toNat)).map
        (fun k => if (k + 1) * factor.toNat ≤ fns.length then factor.toNat
          else fns.length % factor.toNat) ∧
    ParallelizeThrottled fns factor =
      runWaves fns (waves fns.length factor.toNat)
        (List.replicate fns.length none) := by
  have hF : 0 < factor.toNat := by omega
  refine ⟨waves_eq_map _ _ hF, waves_length _ _ hF, waves_flatten _ _,
    waves_sizes _ _ hF, ?_⟩
  rw [ParallelizeThrottled, if_neg (by omega), ParallelizeThrottledSched]

/-- Witness for C3: four tasks, factor 3: waves `[0,1,2]` and `[3]`. -/
theorem claim3_wave_partition_witness :
    waves 4 3 = [[0, 1, 2], [3]] ∧
    (waves 4 3).length = 2 ∧
    (waves 4 3).flatten = [0, 1, 2, 3] ∧
    (waves 4 3).map List.length = [3, 1] ∧
    ParallelizeThrottled [GoTask.ret (some (1 : Int)), GoTask.panic,
        GoTask.ret none, GoTask.ret (some 4)] 3 =
      runWaves [GoTask.ret (some (1 : Int)), GoTask.panic, GoTask.ret none,
        GoTask.ret (some 4)] (waves 4 3) (List.replicate 4 none) := by
  obtain ⟨h1, h2, h3, h4, h5⟩ := claim3_wave_partition (α := Int)
    [GoTask.ret (some 1), GoTask.panic, GoTask.ret none, GoTask.ret (some 4)]
    3 (by decide)
  have e : Int.toNat 3 = 3 := rfl
  rw [e] at h1 h2 h3 h4 h5
  norm_num at h1 h2 h3 h4 h5
  refine ⟨?_, ?_, ?_, ?_, ?_⟩
  · rw [h1]
    decide
  · rw [h2]
  · rw [h3]
    decide
  · rw [h4]
    decide
  · exact h5

/-- C4: every factor `F ≤ 0` makes `ParallelizeThrottled` delegate
entirely to `Parallelize`: the outputs are identical. -/
theorem claim4_nonpositive_factor_delegates {α : Type} (fns : List (GoTask α))
    (factor : Int) (h : factor ≤ 0) :
    ParallelizeThrottled fns factor = Parallelize fns := by
  rw [ParallelizeThrottled, if_pos h]

/-- Witness for C4 at factors `0` and `-3`. -/
theorem claim4_nonpositive_factor_delegates_witness :
    ParallelizeThrottled [GoTask.ret (some (1 : Int)), GoTask.panic] 0 =
      Parallelize [GoTask.ret (some (1 : Int)), GoTask.panic] ∧
    ParallelizeThrottled [GoTask.ret (some (1 : Int)), GoTask.panic] (-3) =
      Parallelize [GoTask.ret (some (1 : Int)), GoTask.panic] :=
  ⟨claim4_nonpositive_factor_delegates _ 0 (by decide),
   claim4_nonpositive_factor_delegates _ (-3) (by decide)⟩

/-- C5: for a positive factor at least the batch size, the loop runs a
single wave holding every index (none for an empty batch) and the output
is identical to `Parallelize`. -/
theorem claim5_large_factor_single_wave {α : Type} (fns : List (GoTask α))
    (factor : Int) (h1 : 0 < factor) (h2 : (fns.length : Int) ≤ factor) :
    ParallelizeThrottled fns factor = Parallelize fns ∧
    waves fns.length factor.toNat =
      if fns.length = 0 then [] else [List.range fns.length] := by
  refine ⟨?_, waves_single _ _ (by omega)⟩
  rw [ParallelizeThrottled_eq_map, Parallelize_eq_map]

/-- Witness for C5: two tasks, factor 5. -/
theorem claim5_large_factor_single_wave_witness :
    ParallelizeThrottled [GoTask.ret (some (2 : Int)), GoTask.panic] 5 =
      Parallelize [GoTask.ret (some (2 : Int)), GoTask.panic] ∧
    waves 2 5 = if 2 = 0 then [] else [List.range 2] :=
  claim5_large_factor_single_wave [GoTask.ret (some 2), GoTask.panic] 5
    (by decide) (by decide)

/-- C6: both executors return exactly one slot per input task, for every
batch and every factor; the empty batch yields the empty result set. -/
theorem claim6_result_length {α : Type} (fns : List (GoTask α)) (factor : Int) :
    (Parallelize fns).length = fns.length ∧
    (ParallelizeThrottled fns factor).length = fns.length ∧
    Parallelize ([] : List (GoTask α)) = [] ∧
    ParallelizeThrottled ([] : List (GoTask α)) factor = [] := by
  refine ⟨?_, ?_, ?_, ?_⟩
  · rw [Parallelize_eq_map, List.length_map]
  · rw [ParallelizeThrottled_eq_map, List.length_map]
  · rw [Parallelize_eq_map]
    rfl
  · rw [ParallelizeThrottled_eq_map]
    rfl

/-- C7: slot-write discipline: the wave loop's full write schedule lists
every slot at most once (as does the unbounded runner's), a barrier
group's writes never touch a slot outside its own indices, a slot inside
the group receives exactly its own task's value, and running later waves
leaves every slot outside their blocks — in particular every slot written
by earlier waves — unchanged. -/
theorem claim7_slot_write_discipline {α : Type} (fns : List (GoTask α))
    (factor : Int) (idxs : List Nat) (acc : List (Option α)) (j : Nat)
    (scheds1 scheds2 : List (List Nat)) :
    (waves fns.length factor.toNat).flatten.Nodup ∧
    (List.range fns.length).Nodup ∧
    (j ∉ idxs → (writeSlots fns idxs acc)[j]? = acc[j]?) ∧
    (j ∈ idxs → j < acc.length →
      (writeSlots fns idxs acc)[j]? = some (writeVal fns j)) ∧
    (j ∉ scheds2.flatten →
      (runWaves fns scheds2 (runWaves fns scheds1 acc))[j]? =
        (runWaves fns scheds1 acc)[j]?) := by
  refine ⟨?_, List.nodup_range _, writeSlots_frame fns idxs acc j,
    writeSlots_own fns idxs acc j, runWaves_frame fns scheds2 _ j⟩
  rw [waves_flatten]
  exact List.nodup_range _

/-- Witness for C7: one task; its barrier group leaves the foreign slot 1
untouched and fills its own slot 0; a later wave leaves slot 0 as the
earlier wave wrote it. -/
theorem claim7_slot_write_discipline_witness :
    (writeSlots [GoTask.ret (some (5 : Int))] [0] [none, none])[1]? = some none ∧
    (writeSlots [GoTask.ret (some (5 : Int))] [0] [none, none])[0]? = some (some 5) ∧
    (runWaves [GoTask.ret (some (5 : Int))] [[1]]
      (runWaves [GoTask.ret (some (5 : Int))] [[0]] [none, none]))[0]? =
      (runWaves [GoTask.ret (some (5 : Int))] [[0]] [none, none])[0]? :=
  ⟨(claim7_slot_write_discipline [GoTask.ret (some 5)] 1 [0] [none, none] 1
      [] []).2.2.1 (by decide),
   (claim7_slot_write_discipline [GoTask.ret (some 5)] 1 [0] [none, none] 0
      [] []).2.2.2.1 (by decide) (by decide),
   (claim7_slot_write_discipline [GoTask.ret (some 5)] 1 [] [none, none] 0
      [[0]] [[1]]).2.2.2.2 (by decide)⟩

/-- C8: the package's concrete scenarios: the ten pair-sum tasks yield
`[30,32,…,48]` under `Parallelize` and under `ParallelizeThrottled` with
factor 3; with the pair `(13,23)` made to panic (batch index 3), both
executors yield the same list with slot 3 left at the absent `nil`
marker and every other slot populated normally. -/
theorem claim8_concrete_scenarios :
    Parallelize exampleTasks = [some 30, some 32, some 34, some 36, some 38,
      some 40, some 42, some 44, some 46, some 48] ∧
    ParallelizeThrottled exampleTasks 3 = [some 30, some 32, some 34, some 36,
      some 38, some 40, some 42, some 44, some 46, some 48] ∧
    Parallelize testTasks = [some 30, some 32, some 34, none, some 38,
      some 40, some 42, some 44, some 46, some 48] ∧
    ParallelizeThrottled testTasks 3 = [some 30, some 32, some 34, none,
      some 38, some 40, some 42, some 44, some 46, some 48] := by
  refine ⟨?_, ?_, ?_, ?_⟩
  · rw [Parallelize_eq_map]
    decide
  · rw [ParallelizeThrottled_eq_map]
    decide
  · rw [Parallelize_eq_map]
    decide
  · rw [ParallelizeThrottled_eq_map]
    decide

/-- C9: a run in which task `i` panics is indistinguishable from the
returned result set alone from a run in which task `i` instead returns the
`nil` value normally — under both executors and every factor. -/
theorem claim9_panic_vs_nil_indistinguishable {α : Type}
    (fns : List (GoTask α)) (i : Nat) (factor : Int) :
    Parallelize (fns.set i GoTask.panic) =
      Parallelize (fns.set i (GoTask.ret none)) ∧
    ParallelizeThrottled (fns.set i GoTask.panic) factor =
      ParallelizeThrottled (fns.set i (GoTask.ret none)) factor := by
  have h : (fns.set i GoTask.panic).map runGuarded =
      (fns.set i (GoTask.ret none)).map runGuarded := by
    rw [List.map_set, List.map_set]
    rfl
  constructor
  · rw [Parallelize_eq_map, Parallelize_eq_map, h]
  · rw [ParallelizeThrottled_eq_map, ParallelizeThrottled_eq_map, h]

/-- C10: with factor 1 the throttled executor degenerates to sequential
execution in input order: the wave list is one singleton wave per index,
in order, folded strictly sequentially, and slot `i` receives task `i`'s
guarded outcome. -/
theorem claim10_factor_one_sequential {α : Type} (fns : List (GoTask α)) :
    ParallelizeThrottled fns 1 = fns.map runGuarded ∧
    waves fns.length 1 = (List.range fns.length).map (fun k => [k]) ∧
    ParallelizeThrottled fns 1 =
      runWaves fns ((List.range fns.length).map (fun k => [k]))
        (List.replicate fns.length none) := by
  have hw : waves fns.length 1 = (List.range fns.length).map (fun k => [k]) := by
    rw [waves_eq_map fns.length 1 (by omega)]
    have hq : (fns.length + 1 - 1) / 1 = fns.length := by omega
    rw [hq]
    apply List.map_congr_left
    intro k hk
    have hk' : k < fns.length := List.mem_range.mp hk
    have hmin : min 1 (fns.length - k * 1) = 1 := by omega
    rw [hmin, List.range'_one, Nat.mul_one]
  refine ⟨ParallelizeThrottled_eq_map fns 1, hw, ?_⟩
  rw [ParallelizeThrottled, if_neg (by norm_num), ParallelizeThrottledSched,
    Int.toNat_one, hw]

end Gowraps
